import Mathlib

set_option maxRecDepth 20000

namespace SECForm4

/-- Go `strings.HasPrefix pre s` on character lists: `leadsWith pre s` is true iff
`pre` is a leading segment of `s`. -/
def leadsWith : List Char → List Char → Bool
  | [], _ => true
  | _ :: _, [] => false
  | a :: as, b :: bs => a == b && leadsWith as bs

/-- Leftmost occurrence of `sep` in `s`, as scanned by Go `strings.Index`: returns the
text strictly before the first occurrence and the text strictly after it, or `none`
when `sep` does not occur in `s`. -/
def firstOcc (sep : List Char) : List Char → Option (List Char × List Char)
  | [] => if leadsWith sep [] then some ([], []) else none
  | c :: rest =>
    if leadsWith sep (c :: rest) then some ([], (c :: rest).drop sep.length)
    else
      match firstOcc sep rest with
      | none => none
      | some pp => some (c :: pp.1, pp.2)

/-- Fuel-indexed core of Go `strings.Split`. -/
def goSplitAux (sep : List Char) : Nat → List Char → List (List Char)
  | 0, s => [s]
  | fuel + 1, s =>
    match firstOcc sep s with
    | none => [s]
    | some pp => pp.1 :: goSplitAux sep fuel pp.2

/-- Go `strings.Split s sep` for a non-empty separator (every separator used by this
code base is a non-empty literal): splits `s` around each non-overlapping leftmost
occurrence of `sep`. -/
def goSplit (sep s : List Char) : List (List Char) :=
  goSplitAux sep (s.length + 1) s

/-- Fuel-indexed core of Go `strings.ReplaceAll`. -/
def goReplaceAux (old new : List Char) : Nat → List Char → List Char
  | 0, s => s
  | fuel + 1, s =>
    match firstOcc old s with
    | none => s
    | some pp => pp.1 ++ new ++ goReplaceAux old new fuel pp.2

/-- Go `strings.ReplaceAll s old new` for a non-empty `old`. -/
def goReplaceAll (old new s : List Char) : List Char :=
  goReplaceAux old new (s.length + 1) s

theorem leadsWith_append {pre : List Char} :
    ∀ {s : List Char}, leadsWith pre s = true → s = pre ++ s.drop pre.length := by
  induction pre with
  | nil => intro s _; simp
  | cons a as ih =>
    intro s h
    cases s with
    | nil => simp [leadsWith] at h
    | cons b bs =>
      simp only [leadsWith, Bool.and_eq_true, beq_iff_eq] at h
      obtain ⟨rfl, h2⟩ := h
      simpa using ih h2

theorem firstOcc_decomp {sep : List Char} :
    ∀ {s pre post : List Char}, firstOcc sep s = some (pre, post) →
      s = pre ++ sep ++ post := by
  intro s
  induction s with
  | nil =>
    intro pre post h
    simp only [firstOcc] at h
    by_cases hl : leadsWith sep [] = true
    · cases sep with
      | nil => simp [hl] at h; simp [h.1, h.2]
      | cons a as => simp [leadsWith] at hl
    · simp [hl] at h
  | cons c rest ih =>
    intro pre post h
    simp only [firstOcc] at h
    by_cases hl : leadsWith sep (c :: rest) = true
    · rw [if_pos hl] at h
      have hd := leadsWith_append hl
      simp only [Option.some.injEq, Prod.mk.injEq] at h
      obtain ⟨rfl, rfl⟩ := h
      simpa using hd
    · rw [if_neg hl] at h
      cases hrec : firstOcc sep rest with
      | none => rw [hrec] at h; simp at h
      | some pp =>
        rw [hrec] at h
        simp only [Option.some.injEq, Prod.mk.injEq] at h
        obtain ⟨rfl, rfl⟩ := h
        have := ih hrec
        simp [this]

theorem firstOcc_post_lt {sep s pre post : List Char} (hsep : sep ≠ [])
    (h : firstOcc sep s = some (pre, post)) : post.length < s.length := by
  have hd := firstOcc_decomp h
  have hlen : s.length = pre.length + sep.length + post.length := by
    rw [hd]
    simp only [List.length_append]
  have hpos : 0 < sep.length := List.length_pos.mpr hsep
  omega

theorem firstOcc_single_none_iff {c : Char} :
    ∀ {s : List Char}, firstOcc [c] s = none ↔ c ∉ s := by
  intro s
  induction s with
  | nil => simp [firstOcc, leadsWith]
  | cons b bs ih =>
    simp only [firstOcc]
    by_cases hcb : c = b
    · subst hcb
      rw [if_pos (by simp [leadsWith])]
      simp
    · rw [if_neg (by simp [leadsWith, hcb])]
      cases hrec : firstOcc [c] bs with
      | none =>
        have hbs : c ∉ bs := ih.mp hrec
        simp [List.mem_cons, hcb, hbs]
      | some pp =>
        have hbs : c ∈ bs := by
          by_contra hmem
          rw [ih.mpr hmem] at hrec
          simp at hrec
        simp [List.mem_cons, hbs]

theorem firstOcc_single_pre {c : Char} :
    ∀ {s pre post : List Char}, firstOcc [c] s = some (pre, post) → c ∉ pre := by
  intro s
  induction s with
  | nil =>
    intro pre post h
    simp [firstOcc, leadsWith] at h
  | cons b bs ih =>
    intro pre post h
    simp only [firstOcc, leadsWith, Bool.and_true, beq_iff_eq] at h
    by_cases hcb : c = b
    · rw [if_pos (by simp [hcb, leadsWith])] at h
      simp only [Option.some.injEq, Prod.mk.injEq] at h
      obtain ⟨rfl, rfl⟩ := h
      simp
    · rw [if_neg (by simp [leadsWith, hcb])] at h
      cases hrec : firstOcc [c] bs with
      | none => rw [hrec] at h; simp at h
      | some pp =>
        rw [hrec] at h
        simp only [Option.some.injEq, Prod.mk.injEq] at h
        obtain ⟨rfl, rfl⟩ := h
        have := ih hrec
        simp only [List.mem_cons]
        rintro (rfl | hmem)
        · exact hcb rfl
        · exact this hmem

theorem goSplit_of_none {sep s : List Char} (h : firstOcc sep s = none) :
    goSplit sep s = [s] := by
  simp [goSplit, goSplitAux, h]

theorem goSplit_head_of_some {sep s pre post : List Char}
    (h : firstOcc sep s = some (pre, post)) :
    (goSplit sep s).getD 0 [] = pre := by
  simp [goSplit, goSplitAux, h]

theorem goSplitAux_ne_nil {sep : List Char} {fuel : Nat} {s : List Char} :
    goSplitAux sep fuel s ≠ [] := by
  cases fuel with
  | zero => simp [goSplitAux]
  | succ n =>
    simp only [goSplitAux]
    cases firstOcc sep s with
    | none => simp
    | some pp => simp

theorem goSplit_ne_nil {sep s : List Char} : goSplit sep s ≠ [] :=
  goSplitAux_ne_nil

theorem getLastD_mem {α : Type} :
    ∀ (l : List α) (d : α), l ≠ [] → l.getLastD d ∈ l := by
  intro l
  induction l with
  | nil => intro d h; exact absurd rfl h
  | cons a t ih =>
    intro d _
    rw [List.getLastD_cons]
    cases t with
    | nil => simp
    | cons b t2 =>
      have := ih a (by simp)
      exact List.mem_cons_of_mem _ this

theorem goSplitAux_single_no_mem {c : Char} :
    ∀ (fuel : Nat) (s : List Char), s.length < fuel →
      ∀ l ∈ goSplitAux [c] fuel s, c ∉ l := by
  intro fuel
  induction fuel with
  | zero => intro s h; omega
  | succ n ih =>
    intro s hlen l hl
    simp only [goSplitAux] at hl
    cases hocc : firstOcc [c] s with
    | none =>
      rw [hocc] at hl
      simp only [List.mem_singleton] at hl
      subst hl
      exact firstOcc_single_none_iff.mp hocc
    | some pp =>
      rw [hocc] at hl
      simp only [List.mem_cons] at hl
      cases hl with
      | inl h => subst h; exact firstOcc_single_pre hocc
      | inr h =>
        have hlt : pp.2.length < s.length :=
          firstOcc_post_lt (by simp) hocc
        exact ih pp.2 (by omega) l h

theorem goSplit_single_no_mem {c : Char} {s : List Char} :
    ∀ l ∈ goSplit [c] s, c ∉ l :=
  goSplitAux_single_no_mem (s.length + 1) s (by omega)

theorem goReplaceAux_single_empty_eq_filter {c : Char} :
    ∀ (fuel : Nat) (s : List Char), s.length < fuel →
      goReplaceAux [c] [] fuel s = s.filter (fun d => d != c) := by
  intro fuel
  induction fuel with
  | zero => intro s h; omega
  | succ n ih =>
    intro s hlen
    simp only [goReplaceAux]
    cases hocc : firstOcc [c] s with
    | none =>
      have hmem : c ∉ s := firstOcc_single_none_iff.mp hocc
      rw [List.filter_eq_self.mpr]
      intro a ha
      simp only [bne_iff_ne, ne_eq]
      intro hac
      exact hmem (hac ▸ ha)
    | some pp =>
      have hd := firstOcc_decomp hocc
      have hpre : c ∉ pp.1 := firstOcc_single_pre hocc
      have hlt : pp.2.length < s.length := firstOcc_post_lt (by simp) hocc
      show pp.1 ++ [] ++ goReplaceAux [c] [] n pp.2 = List.filter (fun d => d != c) s
      rw [ih pp.2 (by omega)]
      rw [hd]
      rw [List.filter_append, List.filter_append]
      have h1 : pp.1.filter (fun d => d != c) = pp.1 := by
        rw [List.filter_eq_self.mpr]
        intro a ha
        simp only [bne_iff_ne, ne_eq]
        intro hac
        exact hpre (hac ▸ ha)
      have h2 : [c].filter (fun d => d != c) = [] := by simp
      rw [h1, h2]

theorem goReplaceAll_single_empty_eq_filter {c : Char} {s : List Char} :
    goReplaceAll [c] [] s = s.filter (fun d => d != c) :=
  goReplaceAux_single_empty_eq_filter (s.length + 1) s (by omega)

/-- The literal separator `.txt` used by `parseDailyMasterFile`. -/
def dotTxt : List Char := ".txt".toList

def slashChar : Char := '/'

def hyphenChar : Char := '-'

def pipeChar : Char := '|'

def nlChar : Char := '\n'

/-- One row of a daily master index file, as built by `parseDailyMasterFile`
(struct `DailyFilingsRow` in the Go source). -/
structure DailyFilingsRow where
  CIK : List Char
  CompanyName : List Char
  FormType : List Char
  DateFiled : List Char
  FileName : List Char
  AccessionNumber : List Char
deriving DecidableEq

/-- Accession-number normalization from `parseDailyMasterFile`:
`strings.Split(parts[4], ".txt")[0]`, then the last `/`-separated segment, then
`strings.ReplaceAll(acc, "-", "")`. -/
def normalizeAccession (fileName : List Char) : List Char :=
  let acc := (goSplit dotTxt fileName).getD 0 []
  let split := goSplit [slashChar] acc
  goReplaceAll [hyphenChar] [] (split.getLastD [])

/-- Turns the 5 pipe-separated fields of an index line into a `DailyFilingsRow`,
as the loop body of `parseDailyMasterFile` does (only called with 5 parts). -/
def mkDailyRow (parts : List (List Char)) : DailyFilingsRow :=
  { CIK := parts.getD 0 [], CompanyName := parts.getD 1 [], FormType := parts.getD 2 [],
    DateFiled := parts.getD 3 [], FileName := parts.getD 4 [],
    AccessionNumber := normalizeAccession (parts.getD 4 []) }

/-- The row loop of `parseDailyMasterFile`: empty rows are skipped, rows that do not
split into exactly 5 pipe-separated parts are logged and skipped, all other rows are
appended in file order. -/
def parseRows : List (List Char) → List DailyFilingsRow
  | [] => []
  | row :: rest =>
    if row = [] then parseRows rest
    else if (goSplit [pipeChar] row).length = 5 then
      mkDailyRow (goSplit [pipeChar] row) :: parseRows rest
    else parseRows rest

/-- Go `parseDailyMasterFile`: splits the file on newlines, drops the first 7 header
rows with `rows[7:]`, and runs the row loop.  `rows[7:]` panics in Go when the file
has fewer than 7 newline-separated rows; that panic is modelled as `none`. -/
def parseDailyMasterFile (fileContent : List Char) : Option (List DailyFilingsRow) :=
  let rows := goSplit [nlChar] fileContent
  if 7 ≤ rows.length then some (parseRows (rows.drop 7)) else none

theorem parseRows_eq_filter_map (l : List (List Char)) :
    parseRows l =
      (l.filter (fun row => !row.isEmpty && (goSplit [pipeChar] row).length == 5)).map
        (fun row => mkDailyRow (goSplit [pipeChar] row)) := by
  induction l with
  | nil => rfl
  | cons row rest ih =>
    simp only [parseRows, List.filter_cons]
    by_cases hrow : row = []
    · subst hrow
      simp [ih]
    · rw [if_neg hrow]
      by_cases hlen : (goSplit [pipeChar] row).length = 5
      · rw [if_pos hlen]
        have hcond : (!row.isEmpty && (goSplit [pipeChar] row).length == 5) = true := by
          simp [List.isEmpty_iff, hrow, hlen]
        rw [hcond]
        simp [ih]
      · rw [if_neg hlen]
        have hcond : (!row.isEmpty && (goSplit [pipeChar] row).length == 5) = false := by
          simp [hlen]
        rw [hcond]
        simp [ih]

/-- A normalized value is a fixed point of `normalizeAccession` when it contains no
`.txt` occurrence, no slash and no hyphen. -/
theorem normalizeAccession_fixed {y : List Char} (h1 : firstOcc dotTxt y = none)
    (h2 : slashChar ∉ y) (h3 : hyphenChar ∉ y) : normalizeAccession y = y := by
  unfold normalizeAccession
  rw [goSplit_of_none h1]
  simp only [List.getD_cons_zero]
  rw [goSplit_of_none (firstOcc_single_none_iff.mpr h2)]
  simp only [List.getLastD_cons, List.getLastD_nil]
  rw [goReplaceAll_single_empty_eq_filter]
  rw [List.filter_eq_self.mpr]
  intro a ha
  simp only [bne_iff_ne, ne_eq]
  intro hac
  exact h3 (hac ▸ ha)

/-- The output of `normalizeAccession` never contains a slash. -/
theorem normalizeAccession_no_slash (x : List Char) :
    slashChar ∉ normalizeAccession x := by
  unfold normalizeAccession
  rw [goReplaceAll_single_empty_eq_filter]
  intro hmem
  have hin := (List.mem_filter.mp hmem).1
  have hlast := getLastD_mem
    (goSplit [slashChar] ((goSplit dotTxt x).getD 0 [])) [] goSplit_ne_nil
  exact goSplit_single_no_mem _ hlast hin

/-- The output of `normalizeAccession` never contains a hyphen. -/
theorem normalizeAccession_no_hyphen (x : List Char) :
    hyphenChar ∉ normalizeAccession x := by
  unfold normalizeAccession
  rw [goReplaceAll_single_empty_eq_filter]
  intro hmem
  have := (List.mem_filter.mp hmem).2
  simp at this

/-- Seven header lines used to build concrete index files in the statements below. -/
def headerSevenLines : List Char :=
  ("h1\nh2\nh3\nh4\nh5\nh6\nh7\n").toList

/-- The daily index line of the spec's end-to-end example, verbatim, including its
trailing pipe. -/
def specExampleLine : List Char :=
  ("0000320193|Apple Inc.|4|2022-04-01|edgar/data/320193/000032019322000050.txt|").toList

def specExampleFile : List Char := headerSevenLines ++ specExampleLine

/-- The same daily index line without the trailing pipe, so that it splits into
exactly 5 pipe-separated fields. -/
def fixedExampleLine : List Char :=
  ("0000320193|Apple Inc.|4|2022-04-01|edgar/data/320193/000032019322000050.txt").toList

def fixedExampleFile : List Char := headerSevenLines ++ fixedExampleLine

/-- Claim C5 (counterexample): the spec's example line ends in a pipe, so Go
`strings.Split` cuts it into 6 fields, the `len(parts) != 5` guard skips it, and
parsing yields no descriptor at all: the row loop on that line returns nothing and a
file holding the line after the 7 header lines parses to the empty row list. -/
theorem daily_line_example_refuted :
    parseRows [specExampleLine] = [] ∧ parseDailyMasterFile specExampleFile = some [] := by
  constructor
  · decide
  · decide

/-- Claim C5 (amended): with the trailing pipe removed the line `0000320193|Apple
Inc.|4|2022-04-01|edgar/data/320193/000032019322000050.txt` parses to a descriptor
with CIK `0000320193`, form type `4` and accession number `000032019322000050`
(`.txt` stripped, hyphens removed); the line as written in the spec, with the
trailing pipe, is skipped because it splits into 6 fields. -/
theorem daily_line_example_amended :
    parseDailyMasterFile fixedExampleFile =
      some [{ CIK := ("0000320193").toList, CompanyName := ("Apple Inc.").toList,
              FormType := ("4").toList, DateFiled := ("2022-04-01").toList,
              FileName := ("edgar/data/320193/000032019322000050.txt").toList,
              AccessionNumber := ("000032019322000050").toList }] := by
  decide

/-- Claim C7 (counterexample): on an empty raw index file, `rows[7:]` in Go panics
because the newline split yields a single row; the parser does fail on that input
(modelled as `none`), refuting the claim that the parser never fails on any raw
index file input. -/
theorem parse_master_fails_short_file :
    parseDailyMasterFile [] = none := by decide

/-- Claim C7 (amended): for every raw index file with at least 7 newline-separated
rows, the parser does not fail: it drops the 7 header rows unconditionally, excludes
every remaining row that is empty or does not split into exactly 5 pipe-separated
fields, and maps each remaining 5-field row to its descriptor in file order. -/
theorem parse_master_skips_malformed_lines (f : List Char)
    (h : 7 ≤ (goSplit [nlChar] f).length) :
    parseDailyMasterFile f =
      some ((((goSplit [nlChar] f).drop 7).filter
          (fun row => !row.isEmpty && (goSplit [pipeChar] row).length == 5)).map
        (fun row => mkDailyRow (goSplit [pipeChar] row))) := by
  simp only [parseDailyMasterFile, if_pos h]
  rw [parseRows_eq_filter_map]

/-- Concrete index file for the C7 witness: one good 5-field row, one 2-field row
and one empty row after the 7 header lines. -/
def c7File : List Char :=
  ("h1\nh2\nh3\nh4\nh5\nh6\nh7\n1|A|4|2022-04-01|a/b-1.txt\nbad|row\n").toList

/-- Witness for claim C7 at a concrete raw index file. -/
theorem parse_master_skips_malformed_lines_witness :
    parseDailyMasterFile c7File =
      some ((((goSplit [nlChar] c7File).drop 7).filter
          (fun row => !row.isEmpty && (goSplit [pipeChar] row).length == 5)).map
        (fun row => mkDailyRow (goSplit [pipeChar] row))) :=
  parse_master_skips_malformed_lines c7File (by decide)

/-- Claim C9 (counterexample): normalization is not idempotent on every string:
removing hyphens can create a fresh `.txt` occurrence, so a second pass truncates
further.  On the input `.t-xt` the first pass yields `.txt` and the second yields
the empty string. -/
theorem normalize_not_idempotent :
    normalizeAccession (normalizeAccession ((".t-xt").toList)) ≠
      normalizeAccession ((".t-xt").toList) := by
  decide

/-- Claim C9 (amended): normalization is idempotent on every string whose normalized
form contains no `.txt` occurrence (in particular on already-normalized accession
numbers, which are digit strings): `normalize (normalize x) = normalize x`. -/
theorem normalize_idempotent_of_no_dotTxt (x : List Char)
    (h : firstOcc dotTxt (normalizeAccession x) = none) :
    normalizeAccession (normalizeAccession x) = normalizeAccession x :=
  normalizeAccession_fixed h (normalizeAccession_no_slash x) (normalizeAccession_no_hyphen x)

/-- Witness for claim C9 at a concrete document path. -/
theorem normalize_idempotent_witness :
    normalizeAccession (normalizeAccession
        (("edgar/data/320193/0000320193-22-000050.txt").toList)) =
      normalizeAccession (("edgar/data/320193/0000320193-22-000050.txt").toList) :=
  normalize_idempotent_of_no_dotTxt (("edgar/data/320193/0000320193-22-000050.txt").toList)
    (by decide)

/-- Claim C10: normalization truncates at the first `.txt` occurrence anywhere in
the document path: whenever the path decomposes as the text before a first `.txt`
occurrence and the text after it, the result is computed from the truncated text
before it (last slash segment, hyphens removed), and on `a.txtb`, whose `.txt` is
interior rather than a trailing suffix, the result is `a`. -/
theorem normalize_truncates_at_first_dotTxt :
    (∀ p pre post, firstOcc dotTxt p = some (pre, post) →
        normalizeAccession p =
          goReplaceAll [hyphenChar] [] ((goSplit [slashChar] pre).getLastD []))
    ∧ normalizeAccession (("a.txtb").toList) = ("a").toList := by
  constructor
  · intro p pre post h
    unfold normalizeAccession
    rw [goSplit_head_of_some h]
  · decide

/-- Witness for claim C10 at a concrete document path with a `.txt` occurrence. -/
theorem normalize_truncates_witness :
    normalizeAccession (("edgar/data/1/0001-23.txt").toList) =
      goReplaceAll [hyphenChar] []
        ((goSplit [slashChar] (("edgar/data/1/0001-23").toList)).getLastD []) :=
  normalize_truncates_at_first_dotTxt.1 (("edgar/data/1/0001-23.txt").toList)
    (("edgar/data/1/0001-23").toList) [] (by decide)

def xmlOpenTag : List Char := ("<XML>").toList

def xmlCloseTag : List Char := ("</XML>").toList

/-- Isolation of the embedded XML region in a composite filing document: split on the
literal `<XML>`, require exactly two parts, split the second part on `</XML>`,
require exactly two parts, and keep the text between the markers.  Returns `none`
exactly when either guard fails (the `invalid parts` skips in `main`). -/
def splitXML (content : List Char) : Option (List Char) :=
  if (goSplit xmlOpenTag content).length = 2 then
    if (goSplit xmlCloseTag ((goSplit xmlOpenTag content).getD 1 [])).length = 2 then
      some ((goSplit xmlCloseTag ((goSplit xmlOpenTag content).getD 1 [])).getD 0 [])
    else none
  else none

/-- A parsed XML document, abstracted as the answers `xmlquery.Query` gives for each
node path: `none` models both a query error and a nil node (the Go code treats the
two identically, skipping the filing). -/
def Doc := String → Option String

def issuerCikPath : String := "//ownershipDocument/issuer/issuerCik"

def rptOwnerCikPath : String := "//ownershipDocument/reportingOwner/rptOwnerCik"

def rptOwnerNamePath : String := "//ownershipDocument/reportingOwner/rptOwnerName"

def aOrDPath : String :=
  "//ownershipDocument/derivativeTable/derivativeTransaction/transactionAmounts/transactionAcquiredDisposedCode/value"

def amountPath : String :=
  "//ownershipDocument/derivativeTable/derivativeTransaction/transactionAmounts/transactionShares/value"

def pricePath : String :=
  "//ownershipDocument/derivativeTable/derivativeTransaction/transactionAmounts/transactionPricePerShare/value"

def transactionDatePath : String :=
  "//ownershipDocument/derivativeTable/derivativeTransaction/transactionDate/value"

def titleOfSecurityPath : String :=
  "//ownershipDocument/derivativeTable/derivativeTransaction/securityTitle/value"

def issuerNamePath : String := "//ownershipDocument/issuer/issuerName"

def issuerTickerPath : String := "//ownershipDocument/issuer/issuerTradingSymbol"

def isDirectorPath : String :=
  "//ownershipDocument/reportingOwner/reportingOwnerRelationship/isDirector"

def isOfficerPath : String :=
  "//ownershipDocument/reportingOwner/reportingOwnerRelationship/isOfficer"

def isTenPercentOwnerPath : String :=
  "//ownershipDocument/reportingOwner/reportingOwnerRelationship/isTenPercentOwner"

def isOtherPath : String :=
  "//ownershipDocument/reportingOwner/reportingOwnerRelationship/isOther"

def newAmountOwnedPath : String :=
  "//ownershipDocument/derivativeTable/derivativeTransaction/postTransactionAmounts/sharesOwnedFollowingTransaction/value"

def directOrIndirectPath : String :=
  "//ownershipDocument/derivativeTable/derivativeTransaction/ownershipNature/directOrIndirectOwnership/value"

/-- The 16 node paths queried by `main`, in query order. -/
def requiredPaths : List String :=
  [issuerCikPath, rptOwnerCikPath, rptOwnerNamePath, aOrDPath, amountPath, pricePath,
   transactionDatePath, titleOfSecurityPath, issuerNamePath, issuerTickerPath,
   isDirectorPath, isOfficerPath, isTenPercentOwnerPath, isOtherPath,
   newAmountOwnedPath, directOrIndirectPath]

/-- One output row, in the column order of the `csvData` append in `main`. -/
structure ExtractedFiling where
  issuerCIK : String
  reportingPersonCIK : String
  accessionNumber : String
  reportingPersonName : String
  aOrD : String
  amount : String
  price : String
  transactionDate : String
  titleOfSecurity : String
  issuerName : String
  issuerTicker : String
  isDirector : String
  isOfficer : String
  isTenPercentOwner : String
  isOther : String
  newAmountOwned : String
  directOrIndirectOwnership : String
deriving DecidableEq

/-- The 16 query-then-nil-check blocks of `main`, lines 110-270: each missing or
errored node makes the whole filing yield nothing, otherwise the row is built from
the node texts verbatim plus the filing's accession number. -/
def extractFields (doc : Doc) (accession : String) : Option ExtractedFiling :=
  (doc issuerCikPath).bind fun issuerCIK =>
  (doc rptOwnerCikPath).bind fun reportingPersonCIK =>
  (doc rptOwnerNamePath).bind fun reportingPersonName =>
  (doc aOrDPath).bind fun aOrD =>
  (doc amountPath).bind fun amount =>
  (doc pricePath).bind fun price =>
  (doc transactionDatePath).bind fun transactionDate =>
  (doc titleOfSecurityPath).bind fun titleOfSecurity =>
  (doc issuerNamePath).bind fun issuerName =>
  (doc issuerTickerPath).bind fun issuerTicker =>
  (doc isDirectorPath).bind fun isDirector =>
  (doc isOfficerPath).bind fun isOfficer =>
  (doc isTenPercentOwnerPath).bind fun isTenPercentOwner =>
  (doc isOtherPath).bind fun isOther =>
  (doc newAmountOwnedPath).bind fun newAmountOwned =>
  (doc directOrIndirectPath).bind fun directOrIndirectOwnership =>
  some { issuerCIK, reportingPersonCIK, accessionNumber := accession,
         reportingPersonName, aOrD, amount, price, transactionDate, titleOfSecurity,
         issuerName, issuerTicker, isDirector, isOfficer, isTenPercentOwner, isOther,
         newAmountOwned, directOrIndirectOwnership }

/-- Outcome of the per-filing loop body in `main` for one filing document. -/
inductive StepResult where
  | fatal
  | skipped
  | row (r : ExtractedFiling)
deriving DecidableEq

/-- The per-filing loop body of `main` from the marker split onward: a failed marker
split is a `continue` (skipped); a failed `xmlquery.Parse` is a `log.Fatal` (fatal,
the run aborts); a missing node is a `continue` (skipped); otherwise the row is
appended.  `parseXML` abstracts `xmlquery.Parse` on the isolated region. -/
def processFiling (parseXML : List Char → Option Doc) (accession : String)
    (content : List Char) : StepResult :=
  match splitXML content with
  | none => .skipped
  | some inner =>
    match parseXML inner with
    | none => .fatal
    | some doc =>
      match extractFields doc accession with
      | none => .skipped
      | some r => .row r

/-- If extraction produced a row, every one of the 16 node queries answered with
exactly the text stored in the row, and the accession number is the filing's. -/
theorem extractFields_eq_some {doc : Doc} {accession : String} {r : ExtractedFiling}
    (h : extractFields doc accession = some r) :
    doc issuerCikPath = some r.issuerCIK ∧
    doc rptOwnerCikPath = some r.reportingPersonCIK ∧
    doc rptOwnerNamePath = some r.reportingPersonName ∧
    doc aOrDPath = some r.aOrD ∧
    doc amountPath = some r.amount ∧
    doc pricePath = some r.price ∧
    doc transactionDatePath = some r.transactionDate ∧
    doc titleOfSecurityPath = some r.titleOfSecurity ∧
    doc issuerNamePath = some r.issuerName ∧
    doc issuerTickerPath = some r.issuerTicker ∧
    doc isDirectorPath = some r.isDirector ∧
    doc isOfficerPath = some r.isOfficer ∧
    doc isTenPercentOwnerPath = some r.isTenPercentOwner ∧
    doc isOtherPath = some r.isOther ∧
    doc newAmountOwnedPath = some r.newAmountOwned ∧
    doc directOrIndirectPath = some r.directOrIndirectOwnership ∧
    r.accessionNumber = accession := by
  unfold extractFields at h
  obtain ⟨v1, h1, h⟩ := Option.bind_eq_some.mp h
  obtain ⟨v2, h2, h⟩ := Option.bind_eq_some.mp h
  obtain ⟨v3, h3, h⟩ := Option.bind_eq_some.mp h
  obtain ⟨v4, h4, h⟩ := Option.bind_eq_some.mp h
  obtain ⟨v5, h5, h⟩ := Option.bind_eq_some.mp h
  obtain ⟨v6, h6, h⟩ := Option.bind_eq_some.mp h
  obtain ⟨v7, h7, h⟩ := Option.bind_eq_some.mp h
  obtain ⟨v8, h8, h⟩ := Option.bind_eq_some.mp h
  obtain ⟨v9, h9, h⟩ := Option.bind_eq_some.mp h
  obtain ⟨v10, h10, h⟩ := Option.bind_eq_some.mp h
  obtain ⟨v11, h11, h⟩ := Option.bind_eq_some.mp h
  obtain ⟨v12, h12, h⟩ := Option.bind_eq_some.mp h
  obtain ⟨v13, h13, h⟩ := Option.bind_eq_some.mp h
  obtain ⟨v14, h14, h⟩ := Option.bind_eq_some.mp h
  obtain ⟨v15, h15, h⟩ := Option.bind_eq_some.mp h
  obtain ⟨v16, h16, h⟩ := Option.bind_eq_some.mp h
  injection h with hr
  subst hr
  exact ⟨h1, h2, h3, h4, h5, h6, h7, h8, h9, h10, h11, h12, h13, h14, h15, h16, rfl⟩

/-- If any node query answers `none`, extraction yields nothing. -/
theorem extractFields_eq_none {doc : Doc} {accession : String}
    (h : ∃ p ∈ requiredPaths, doc p = none) :
    extractFields doc accession = none := by
  cases hE : extractFields doc accession with
  | none => rfl
  | some r =>
    exfalso
    obtain ⟨p, hp, hnone⟩ := h
    have hsome := extractFields_eq_some hE
    simp only [requiredPaths, List.mem_cons, List.not_mem_nil, or_false] at hp
    rcases hp with rfl | rfl | rfl | rfl | rfl | rfl | rfl | rfl | rfl | rfl | rfl
      | rfl | rfl | rfl | rfl | rfl <;>
      simp_all

/-- Claim C1: extraction is all-or-nothing.  For a filing document whose XML region
was isolated and parsed, if any of the 16 required node queries answers `none` the
loop body skips the filing, and whenever a row is emitted every field holds exactly
the text of the corresponding node (no empty or placeholder substitution) and the
accession number is the filing's. -/
theorem extraction_all_or_nothing (parseXML : List Char → Option Doc)
    (accession : String) (content inner : List Char) (doc : Doc)
    (h1 : splitXML content = some inner) (h2 : parseXML inner = some doc) :
    ((∃ p ∈ requiredPaths, doc p = none) →
        processFiling parseXML accession content = StepResult.skipped)
    ∧ (∀ r, processFiling parseXML accession content = StepResult.row r →
        doc issuerCikPath = some r.issuerCIK ∧
        doc rptOwnerCikPath = some r.reportingPersonCIK ∧
        doc rptOwnerNamePath = some r.reportingPersonName ∧
        doc aOrDPath = some r.aOrD ∧
        doc amountPath = some r.amount ∧
        doc pricePath = some r.price ∧
        doc transactionDatePath = some r.transactionDate ∧
        doc titleOfSecurityPath = some r.titleOfSecurity ∧
        doc issuerNamePath = some r.issuerName ∧
        doc issuerTickerPath = some r.issuerTicker ∧
        doc isDirectorPath = some r.isDirector ∧
        doc isOfficerPath = some r.isOfficer ∧
        doc isTenPercentOwnerPath = some r.isTenPercentOwner ∧
        doc isOtherPath = some r.isOther ∧
        doc newAmountOwnedPath = some r.newAmountOwned ∧
        doc directOrIndirectPath = some r.directOrIndirectOwnership ∧
        r.accessionNumber = accession) := by
  constructor
  · intro hmiss
    simp only [processFiling, h1, h2, extractFields_eq_none hmiss]
  · intro r hr
    simp only [processFiling, h1, h2] at hr
    cases hE : extractFields doc accession with
    | none =>
      rw [hE] at hr
      exact absurd hr (by simp)
    | some r2 =>
      rw [hE] at hr
      injection hr with hrr
      subst hrr
      exact extractFields_eq_some hE

/-- A composite document with one well-formed marker pair, for concrete checks. -/
def contentOK : List Char := ("junk<XML>payload</XML>junk").toList

/-- A parsed document in which every node query answers: the answer is the path
itself, so provenance of each emitted field is visible. -/
def docAll : Doc := fun p => some p

/-- A parsed document in which every node query answers `none`. -/
def docNone : Doc := fun _ => none

def parseToAll : List Char → Option Doc := fun _ => some docAll

def parseToNone : List Char → Option Doc := fun _ => some docNone

/-- The row emitted from `docAll` with accession number `acc`. -/
def rowAll : ExtractedFiling :=
  { issuerCIK := issuerCikPath, reportingPersonCIK := rptOwnerCikPath,
    accessionNumber := "acc", reportingPersonName := rptOwnerNamePath,
    aOrD := aOrDPath, amount := amountPath, price := pricePath,
    transactionDate := transactionDatePath, titleOfSecurity := titleOfSecurityPath,
    issuerName := issuerNamePath, issuerTicker := issuerTickerPath,
    isDirector := isDirectorPath, isOfficer := isOfficerPath,
    isTenPercentOwner := isTenPercentOwnerPath, isOther := isOtherPath,
    newAmountOwned := newAmountOwnedPath,
    directOrIndirectOwnership := directOrIndirectPath }

/-- Witness for claim C1: a document missing every node is skipped, and on a fully
populated document the emitted issuer CIK is exactly the queried node text. -/
theorem extraction_all_or_nothing_witness :
    processFiling parseToNone ("acc") contentOK = StepResult.skipped ∧
    docAll issuerCikPath = some rowAll.issuerCIK :=
  ⟨(extraction_all_or_nothing parseToNone ("acc") contentOK (("payload").toList) docNone
      (by decide) rfl).1 ⟨issuerCikPath, by simp [requiredPaths], rfl⟩,
   ((extraction_all_or_nothing parseToAll ("acc") contentOK (("payload").toList) docAll
      (by decide) rfl).2 rowAll (by decide)).1⟩

/-- Modelled failure of `xmlquery.Parse` on every region. -/
def parseFails : List Char → Option Doc := fun _ => none

/-- Claim C2 (counterexample): a filing whose markers are well-formed but whose XML
region fails to parse hits the `log.Fatal` branch in `main`: the loop body outcome
is fatal (the run aborts), not skipped, refuting the claim that a parse failure
skips that single filing and never aborts the run. -/
theorem parse_failure_aborts_run :
    processFiling parseFails ("a") contentOK = StepResult.fatal ∧
    processFiling parseFails ("a") contentOK ≠ StepResult.skipped := by
  constructor
  · decide
  · decide

/-- Claim C2 (amended): for every filing whose isolated XML region fails to parse,
`main` calls `log.Fatal` and the whole run aborts; only marker-split failures and
missing nodes cause a single filing to be skipped. -/
theorem parse_failure_is_fatal (parseXML : List Char → Option Doc)
    (accession : String) (content inner : List Char)
    (h1 : splitXML content = some inner) (h2 : parseXML inner = none) :
    processFiling parseXML accession content = StepResult.fatal := by
  simp only [processFiling, h1, h2]

/-- Witness for claim C2 at a concrete composite document. -/
theorem parse_failure_is_fatal_witness :
    processFiling parseFails ("b") contentOK = StepResult.fatal :=
  parse_failure_is_fatal parseFails ("b") contentOK (("payload").toList) (by decide) rfl

/-- Claim C6: whenever splitting the composite document on `<XML>` does not yield
exactly two parts, or splitting the remainder on `</XML>` does not yield exactly two
parts, the loop body skips that filing (no partial record, no abort). -/
theorem marker_mismatch_skips (parseXML : List Char → Option Doc)
    (accession : String) (content : List Char)
    (h : (goSplit xmlOpenTag content).length ≠ 2 ∨
         (goSplit xmlCloseTag ((goSplit xmlOpenTag content).getD 1 [])).length ≠ 2) :
    processFiling parseXML accession content = StepResult.skipped := by
  have hnone : splitXML content = none := by
    unfold splitXML
    rcases h with h | h
    · rw [if_neg h]
    · by_cases hfst : (goSplit xmlOpenTag content).length = 2
      · rw [if_pos hfst, if_neg h]
      · rw [if_neg hfst]
  simp only [processFiling, hnone]

/-- Witness for claim C6 at a document with no markers at all. -/
theorem marker_mismatch_skips_witness :
    processFiling parseFails ("c") (("no markers here").toList) = StepResult.skipped :=
  marker_mismatch_skips parseFails ("c") (("no markers here").toList)
    (Or.inl (by decide))

/-- Retry budget of `DownloadSECFile`: `backoff.WithMaxRetries(..., 5)`. -/
def maxRetries : Nat := 5

/-- Constant backoff delay of `DownloadSECFile` in milliseconds:
`backoff.NewConstantBackOff(time.Millisecond*100)`. -/
def retryDelayMs : Nat := 100

/-- Maximum number of executions of the request closure: the initial attempt plus
`maxRetries` retries. -/
def totalAttempts : Nat := maxRetries + 1

/-- An HTTP response as `DownloadSECFile` observes it: a status code, whether the
body is a well-formed gzip stream, and the decompressed body text. -/
structure HTTPResponse where
  status : Nat
  gzipValid : Bool
  body : String
deriving DecidableEq

/-- Outcome of one execution of the request closure: `http.DefaultClient.Do` either
fails with a transport error (returning a nil response) or yields a response. -/
inductive Attempt where
  | transportErr
  | ok (r : HTTPResponse)
deriving DecidableEq

/-- The error strings `DownloadSECFile` can return, plus the transport and gzip
error cases. -/
inductive SECError where
  | errNotFound
  | errRateLimited
  | errDoesNotExist
  | errHighStatusCode
  | errGzip
deriving DecidableEq

/-- Result of a `DownloadSECFile` call: the returned bytes, a returned error, or a
crash of the process (a nil-pointer dereference panic). -/
inductive FetchOutcome where
  | crash
  | err (e : SECError)
  | bytes (content : String)
deriving DecidableEq

/-- The `backoff.RetryNotify` loop: executions run in order and the loop stops at
the first one that yields a response.  Returns the zero-based index of the
successful execution and its response, or `none` when every execution failed. -/
def findResp : List Attempt → Option (Nat × HTTPResponse)
  | [] => none
  | Attempt.transportErr :: rest => (findResp rest).map (fun ir => (ir.1 + 1, ir.2))
  | Attempt.ok r :: _ => some (0, r)

/-- The status classification of `DownloadSECFile` after the retry loop: 404, 429
and 403 each map to their error string, any other status above 299 is
`ErrHighStatusCode`, and otherwise the gzip body is decompressed and returned. -/
def classifyResponse (r : HTTPResponse) : FetchOutcome :=
  if r.status = 404 then FetchOutcome.err SECError.errNotFound
  else if r.status = 429 then FetchOutcome.err SECError.errRateLimited
  else if r.status = 403 then FetchOutcome.err SECError.errDoesNotExist
  else if 299 < r.status then FetchOutcome.err SECError.errHighStatusCode
  else if r.gzipValid then FetchOutcome.bytes r.body
  else FetchOutcome.err SECError.errGzip

/-- Go `DownloadSECFile` over a schedule of execution outcomes: run the retry loop
over at most `totalAttempts` executions; if some execution produced a response,
classify its status; if every execution failed with a transport error, `resp` is
nil and the unguarded `resp.StatusCode` read on line 307 dereferences a nil
pointer, crashing the process. -/
def downloadSECFile (attempts : Nat → Attempt) : FetchOutcome :=
  match findResp ((List.range totalAttempts).map attempts) with
  | none => FetchOutcome.crash
  | some ir => classifyResponse ir.2

/-- Number of executions of the request closure a `DownloadSECFile` call performs
under a given schedule. -/
def attemptsUsed (attempts : Nat → Attempt) : Nat :=
  match findResp ((List.range totalAttempts).map attempts) with
  | none => totalAttempts
  | some ir => ir.1 + 1

/-- Schedule in which every execution receives an HTTP 429 response. -/
def always429 : Nat → Attempt := fun _ => Attempt.ok { status := 429, gzipValid := true, body := "" }

/-- Schedule in which every execution fails with a transport error. -/
def alwaysTransportErr : Nat → Attempt := fun _ => Attempt.transportErr

/-- Claim C3 (counterexample): a 429 response does not enter the backoff/retry path:
under a schedule of constant 429 responses the call performs exactly one execution
(no retry is ever attempted) and returns `ErrRateLimited` terminally at once. -/
theorem rate_limited_no_retry :
    attemptsUsed always429 = 1 ∧
    downloadSECFile always429 = FetchOutcome.err SECError.errRateLimited := by
  constructor
  · decide
  · decide

/-- Claim C3 (amended): only transport errors are retried; the first execution that
yields a response ends the retry loop, so a fetch whose first response is a 429
returns `ErrRateLimited` immediately after that single execution, and never
surfaces a transport error for it. -/
theorem rate_limited_immediate (attempts : Nat → Attempt) (r : HTTPResponse)
    (h0 : attempts 0 = Attempt.ok r) (h429 : r.status = 429) :
    downloadSECFile attempts = FetchOutcome.err SECError.errRateLimited ∧
    attemptsUsed attempts = 1 := by
  have hrange : (List.range totalAttempts).map attempts =
      [attempts 0, attempts 1, attempts 2, attempts 3, attempts 4, attempts 5] := rfl
  have hfind : findResp ((List.range totalAttempts).map attempts) = some (0, r) := by
    rw [hrange, h0]
    rfl
  have hclass : classifyResponse r = FetchOutcome.err SECError.errRateLimited := by
    unfold classifyResponse
    rw [h429]
    rfl
  constructor
  · simp only [downloadSECFile, hfind, hclass]
  · simp only [attemptsUsed, hfind]

/-- Schedule whose first execution receives a 429 response with an invalid body. -/
def first429 : Nat → Attempt := fun _ => Attempt.ok { status := 429, gzipValid := false, body := "x" }

/-- Witness for claim C3 at a concrete schedule. -/
theorem rate_limited_immediate_witness :
    downloadSECFile first429 = FetchOutcome.err SECError.errRateLimited ∧
    attemptsUsed first429 = 1 :=
  rate_limited_immediate first429 { status := 429, gzipValid := false, body := "x" }
    rfl rfl

/-- Claim C4: the code is expected to surface the transport failure as a terminal
error after exhausting the retry budget, but when all `totalAttempts` executions
fail with transport errors the retry loop leaves `resp` nil and the unguarded
`resp.StatusCode` read crashes the process before the `err != nil` return on line
321 can run: the call performs all 6 executions and then crashes instead of
returning an error. -/
theorem transport_exhaustion_crashes :
    downloadSECFile alwaysTransportErr = FetchOutcome.crash ∧
    attemptsUsed alwaysTransportErr = totalAttempts := by
  constructor
  · decide
  · decide

/-- The on-disk cache directory, as an association list from derived file path to
stored bytes (`os.Stat` + `ioutil.ReadFile`/`WriteFile` in `main` and
`GetFilingsForYearQuarter`). -/
def lookupDisk : List (List Char × List Char) → List Char → Option (List Char)
  | [], _ => none
  | kv :: rest, key => if kv.1 = key then some kv.2 else lookupDisk rest key

/-- State of the caching layer: the disk contents plus an instrumentation counter of
network fetches performed per cache key. -/
structure CacheState where
  disk : List (List Char × List Char)
  fetches : List Char → Nat

/-- The get-or-fetch pattern of `main` lines 64-86 (and 404-429): if a file exists
at the derived key its bytes are read back with no network call; otherwise the file
is fetched once over the network and persisted at the key.  `fetcher` models a
successful `DownloadSECFile` for the URL derived from the same filing as the key
(a failed download or persist is `log.Fatal`, aborting the run before any state
change matters). -/
def getOrFetch (fetcher : List Char → List Char) (key : List Char) (st : CacheState) :
    List Char × CacheState :=
  match lookupDisk st.disk key with
  | some b => (b, st)
  | none =>
    (fetcher key,
     { disk := (key, fetcher key) :: st.disk,
       fetches := fun k => if k = key then st.fetches k + 1 else st.fetches k })

/-- The per-filing download loop over a whole process lifetime: one `getOrFetch`
per requested key, in order. -/
def runCalls (fetcher : List Char → List Char) (keys : List (List Char))
    (st : CacheState) : CacheState :=
  keys.foldl (fun s k => (getOrFetch fetcher k s).2) st

/-- The state at process start: empty cache directory, no fetches performed. -/
def emptyCache : CacheState := { disk := [], fetches := fun _ => 0 }

/-- Invariant tying the fetch counter to the disk: a key absent from disk has never
been fetched, and no key has been fetched more than once. -/
def CacheInv (st : CacheState) (key : List Char) : Prop :=
  (lookupDisk st.disk key = none → st.fetches key = 0) ∧ st.fetches key ≤ 1

theorem getOrFetch_preserves_inv (fetcher : List Char → List Char)
    (k key : List Char) (st : CacheState) (h : CacheInv st key) :
    CacheInv ((getOrFetch fetcher k st).2) key := by
  unfold getOrFetch
  cases hl : lookupDisk st.disk k with
  | some b => exact h
  | none =>
    by_cases hk : key = k
    · subst hk
      have h0 : st.fetches key = 0 := h.1 hl
      constructor
      · intro hnone
        simp [lookupDisk] at hnone
      · simp [h0]
    · have hk2 : ¬(k = key) := fun hc => hk hc.symm
      constructor
      · intro hnone
        simp only [lookupDisk, if_neg hk2] at hnone
        have := h.1 hnone
        simpa [hk] using this
      · simpa [hk] using h.2

theorem runCalls_preserves_inv (fetcher : List Char → List Char)
    (keys : List (List Char)) (key : List Char) :
    ∀ st : CacheState, CacheInv st key → CacheInv (runCalls fetcher keys st) key := by
  induction keys with
  | nil => intro st h; exact h
  | cons k rest ih =>
    intro st h
    have hstep := getOrFetch_preserves_inv fetcher k key st h
    simpa [runCalls, List.foldl] using ih _ hstep

/-- Claim C8: the content cache performs at most one network fetch per cache key per
process lifetime.  A hit returns the stored bytes and changes nothing (zero network
calls); a miss performs exactly one fetch and persists the result under the key; a
second call for the same key never consults the fetcher again; and over any call
sequence from process start the per-key fetch count never exceeds one. -/
theorem cache_at_most_one_fetch (fetcher : List Char → List Char) (key : List Char)
    (st : CacheState) (keys : List (List Char)) :
    (∀ b, lookupDisk st.disk key = some b → getOrFetch fetcher key st = (b, st)) ∧
    (lookupDisk st.disk key = none →
        (getOrFetch fetcher key st).2.fetches key = st.fetches key + 1 ∧
        lookupDisk (getOrFetch fetcher key st).2.disk key = some (fetcher key)) ∧
    ((getOrFetch fetcher key ((getOrFetch fetcher key st).2)).2.fetches key =
        ((getOrFetch fetcher key st).2).fetches key) ∧
    (runCalls fetcher keys emptyCache).fetches key ≤ 1 := by
  refine ⟨?_, ?_, ?_, ?_⟩
  · intro b hb
    unfold getOrFetch
    rw [hb]
  · intro hnone
    unfold getOrFetch
    rw [hnone]
    constructor
    · simp
    · simp [lookupDisk]
  · cases hl : lookupDisk st.disk key with
    | some b =>
      have hfirst : (getOrFetch fetcher key st).2 = st := by
        unfold getOrFetch
        rw [hl]
      rw [hfirst]
      unfold getOrFetch
      rw [hl]
    | none =>
      have hfirst : lookupDisk (getOrFetch fetcher key st).2.disk key
          = some (fetcher key) := by
        unfold getOrFetch
        rw [hl]
        simp [lookupDisk]
      conv in getOrFetch fetcher key (getOrFetch fetcher key st).2 =>
        rw [getOrFetch, hfirst]
  · exact (runCalls_preserves_inv fetcher keys key emptyCache
      ⟨fun _ => rfl, by simp [emptyCache]⟩).2

/-- Concrete key, stored bytes, fetcher and pre-populated state for the C8 witness. -/
def wkey : List Char := ("form4_xml/320193_000032019322000050.xml").toList

def wbytes : List Char := ("cached bytes").toList

def wfetcher : List Char → List Char := fun _ => ("fresh bytes").toList

def wstate : CacheState := { disk := [(wkey, wbytes)], fetches := fun _ => 0 }

/-- Witness for claim C8: a hit on a pre-populated cache returns the stored bytes
unchanged, and two calls for the same key from process start fetch at most once. -/
theorem cache_at_most_one_fetch_witness :
    getOrFetch wfetcher wkey wstate = (wbytes, wstate) ∧
    (runCalls wfetcher [wkey, wkey] emptyCache).fetches wkey ≤ 1 :=
  ⟨(cache_at_most_one_fetch wfetcher wkey wstate []).1 wbytes (by decide),
   (cache_at_most_one_fetch wfetcher wkey emptyCache [wkey, wkey]).2.2.2⟩

end SECForm4
